import Mathlib

/-!
Shallow embedding of the benchmark front-end coordinator (the richest variant of
the application, `oldApp.jsx`, whose aggregation logic coincides with `App.jsx`
except that the latter omits the DNS probe and the in-place sort of the result
list at completion).

Modelling conventions:
* JavaScript numbers are modelled as rationals `ℚ`; `Math.round x` is
  `⌊x + 1/2⌋ : ℤ` (JS rounds half-up, toward plus infinity).
* The React state of the component is the structure `AppState`; `setX`
  calls become functional updates.
* The asynchronous DNS probe is abstracted by a `probeOutcome : Option ProbeResult`
  argument: the value the `runDnsProbe().then(setDnsProbe).catch(() => setDnsProbe(null))`
  chain would eventually store (`none` models the catch branch).
* The field `completions` counts executions of the completion branch of
  `onMessage` (the branch computing `finalScore` and appending a `RunRecord`);
  `probeTriggered` records whether `runDnsProbe` was invoked at the last
  completion.  Both are pure instrumentation of existing branches.
* The browser's randomized `Array.prototype.sort(() => 0.5 - Math.random())`
  has implementation-defined output; it is abstracted by a
  `shuffle : List String → List String` argument, constrained to be a
  permutation of its input in the theorems that need it.
-/

namespace Benchmark

/-- JavaScript `Math.round`: round half toward positive infinity. -/
def jsRound (q : ℚ) : ℤ := ⌊q + 1/2⌋

/-- A worker result message (`benchmarkResult` postMessage payload). -/
structure Msg where
  type : String
  runId : Nat
  index : Nat
  site : String
  loadTime : ℚ
  cpuTime : ℚ
  networkLatency : ℚ
  memoryUsage : ℚ
deriving DecidableEq, Repr

/-- The per-measurement score from `scoreOne` in the source:
`Math.max(0, Math.round(1000 - (0.4*loadTime + 0.3*cpuTime + 0.2*networkLatency + 0.1*memoryUsage)))`. -/
def scoreOne (m : Msg) : ℤ :=
  max 0 (jsRound (1000 -
    (0.4 * m.loadTime + 0.3 * m.cpuTime + 0.2 * m.networkLatency + 0.1 * m.memoryUsage)))

/-- The run score from `averageScore` in the source: 0 on the empty list, else
`Math.round(items.reduce((acc, it) => acc + scoreOne(it), 0) / items.length)`. -/
def averageScore (items : List Msg) : ℤ :=
  if items.length = 0 then 0
  else jsRound ((items.foldl (fun acc it => acc + (scoreOne it : ℚ)) 0) / (items.length : ℚ))

/-- A completed run's record, as built in the completion branch of `onMessage`.
The `at` field of the source is a locale-dependent rendering of `id` and is
omitted. -/
structure RunRecord where
  id : Option Nat
  computer : String
  finalScore : ℤ
  results : List Msg
deriving DecidableEq, Repr

/-- Result of the DNS probe (`runDnsProbe`): two measured latencies and a
recommendation string. -/
structure ProbeResult where
  cloudflareMs : ℤ
  googleMs : ℤ
  recommended : String
deriving DecidableEq, Repr

/-- The component's mutable state.  `completions` and `probeTriggered` are
instrumentation fields: they count, respectively record, executions of the
completion branch of `onMessage`. -/
structure AppState where
  computerName : String
  started : Bool
  results : List Msg
  history : List RunRecord
  runId : Option Nat
  expectedCount : Nat
  dnsProbe : Option ProbeResult
  probeTriggered : Bool
  completions : Nat
deriving DecidableEq, Repr

/-- Insertion step for the index sort. -/
def insertByIndex (m : Msg) : List Msg → List Msg
  | [] => [m]
  | x :: xs => if m.index ≤ x.index then m :: x :: xs else x :: insertByIndex m xs

/-- The source's `next.sort((a, b) => a.index - b.index)`: a stable sort of the
result list by ascending index. -/
def sortByIndex (l : List Msg) : List Msg := l.foldr insertByIndex []

/-- The history update in the completion branch:
`setHistory((old) => [runRecord, ...old].slice(0, 5))`. -/
def histAppend (r : RunRecord) (h : List RunRecord) : List RunRecord := (r :: h).take 5

/-- The slow-load threshold `expectations.loadTimeMs` (1000 ms). -/
def loadTimeMs : ℚ := 1000

/-- The message listener `onMessage` of the source.  Guards: wrong message
type, mismatched run id, duplicate index; then insert, and on reaching
`expectedCount`, compute the final score, build the `RunRecord` (results
sorted by index; the source's in-place `sort` also leaves the state's result
list sorted), append to history, and trigger the DNS probe iff some load time
exceeds the threshold. -/
def onMessage (st : AppState) (msg : Msg) (probeOutcome : Option ProbeResult) : AppState :=
  if msg.type ≠ "benchmarkResult" then st
  else if st.runId ≠ some msg.runId then st
  else if st.results.any (fun p => p.index == msg.index) then st
  else
    let next := st.results ++ [msg]
    if next.length = st.expectedCount then
      let score := averageScore next
      let record : RunRecord :=
        { id := st.runId, computer := st.computerName, finalScore := score,
          results := sortByIndex next }
      let anySlow := next.any (fun r => decide (loadTimeMs < r.loadTime))
      { st with results := sortByIndex next,
                history := histAppend record st.history,
                completions := st.completions + 1,
                probeTriggered := anySlow,
                dnsProbe := if anySlow then probeOutcome else none }
    else { st with results := next }

/-- Validation failures of `runBenchmark` (surfaced to the operator via `alert`). -/
inductive RunError where
  | missingComputerName
  | emptyTargetPool
deriving DecidableEq, Repr

/-- A request to open one worker popup, addressed by `(site, runId, index)`. -/
structure SpawnReq where
  site : String
  runId : Nat
  index : Nat
deriving DecidableEq, Repr

/-- JavaScript `String.prototype.trim`: strip leading and trailing whitespace
(an executable model over the character list). -/
def jsTrim (s : String) : String :=
  String.mk (((s.data.dropWhile Char.isWhitespace).reverse.dropWhile
    Char.isWhitespace).reverse)

/-- The source's `runBenchmark`: validate the computer name and the site pool;
on success shuffle the pool, select `min 5 |pool|` targets, allocate the run id
(`Date.now()`, passed in as `now`), reset the run state and emit one spawn
request per selected target.  `shuffle` abstracts the randomized
implementation-defined `sort(() => 0.5 - Math.random())`. -/
def runBenchmark (st : AppState) (sites : List String)
    (shuffle : List String → List String) (now : Nat) :
    AppState × List SpawnReq × Option RunError :=
  if jsTrim st.computerName = "" then (st, [], some RunError.missingComputerName)
  else if sites.length < 1 then (st, [], some RunError.emptyTargetPool)
  else
    let shuffled := shuffle sites
    let selected := shuffled.take (min 5 shuffled.length)
    let st' := { st with
      dnsProbe := none, runId := some now, started := true,
      results := [], expectedCount := selected.length }
    let spawns := selected.enum.map (fun p => { site := p.2, runId := now, index := p.1 })
    (st', spawns, none)

/-- One key-value write to the durable store (`localStorage.setItem` replaces
the value under the key). -/
def setKey (store : List (String × String)) (k v : String) : List (String × String) :=
  (k, v) :: store.filter (fun p => p.1 != k)

/-- The startup load of persisted history
(`const savedHist = localStorage.getItem(...); if (savedHist) setHistory(JSON.parse(savedHist))`
inside `try { ... } catch {}`): absence, the falsy empty string, or a parse
failure (thrown and caught) all leave the initial empty history in place.
`parse` abstracts `JSON.parse`, returning `none` where it would throw. -/
def loadPersistedHistory (blob : Option String)
    (parse : String → Option (List RunRecord)) : List RunRecord :=
  match blob with
  | none => []
  | some s =>
    if s = "" then []
    else
      match parse s with
      | none => []
      | some h => h

/-- The history persistence effect
(`try { localStorage.setItem("benchmark_history_v1", ...) } catch {}`):
a failed write (`writeOk = false`, the caught throw) leaves the store
unchanged, and no error value is ever produced. -/
def persistHistory (store : List (String × String)) (serialized : String)
    (writeOk : Bool) : List (String × String) :=
  if writeOk then setKey store "benchmark_history_v1" serialized else store

/-- A measurement message with the given metrics (tag, run id 0, index 0). -/
def mkMsg (lt ct nl mu : ℚ) : Msg :=
  { type := "benchmarkResult", runId := 0, index := 0, site := "",
    loadTime := lt, cpuTime := ct, networkLatency := nl, memoryUsage := mu }

lemma foldl_score_eq (items : List Msg) (a : ℚ) :
    items.foldl (fun acc it => acc + (scoreOne it : ℚ)) a
      = a + (((items.map scoreOne).sum : ℤ) : ℚ) := by
  induction items generalizing a with
  | nil => simp
  | cons x xs ih => simp [ih, add_assoc]

/-- Claim C2: the score of a measurement is
`max(0, round(1000 - (0.4*loadTime + 0.3*cpuTime + 0.2*networkLatency + 0.1*memoryUsage)))`;
the all-zero measurement scores 1000; a 100000 ms load time is clamped to 0;
and there is no upper clamp (a negative metric pushes the score above 1000). -/
theorem c2_score_formula :
    (∀ m : Msg, scoreOne m = max 0 (jsRound (1000 -
      (0.4 * m.loadTime + 0.3 * m.cpuTime + 0.2 * m.networkLatency + 0.1 * m.memoryUsage)))) ∧
    scoreOne (mkMsg 0 0 0 0) = 1000 ∧
    scoreOne (mkMsg 100000 0 0 0) = 0 ∧
    (∃ m : Msg, 1000 < scoreOne m) := by
  refine ⟨fun m => rfl, by norm_num [scoreOne, jsRound, mkMsg],
    by norm_num [scoreOne, jsRound, mkMsg],
    ⟨mkMsg (-10) 0 0 0, by norm_num [scoreOne, jsRound, mkMsg]⟩⟩

/-- Claim C3: `averageScore` of the empty sequence is 0, and on a non-empty
sequence it is the rounded mean of the per-item scores.  Two concrete checks:
scores 1000 and 999 average to 1000 (half-up rounding of 999.5), and the pair
scoring 1000 and 0 averages to 500 whereas the score of the mean metrics
(load time 2500) is 0 — the mean of scores, not the score of means. -/
theorem c3_average_score :
    averageScore [] = 0 ∧
    (∀ items : List Msg, items ≠ [] →
      averageScore items
        = jsRound ((((items.map scoreOne).sum : ℤ) : ℚ) / (items.length : ℚ))) ∧
    averageScore [mkMsg 0 0 0 0, mkMsg 2.5 0 0 0] = 1000 ∧
    averageScore [mkMsg 0 0 0 0, mkMsg 5000 0 0 0] = 500 ∧
    scoreOne (mkMsg 2500 0 0 0) = 0 := by
  refine ⟨by norm_num [averageScore], fun items h => ?_,
    by norm_num [averageScore, scoreOne, jsRound, mkMsg],
    by norm_num [averageScore, scoreOne, jsRound, mkMsg],
    by norm_num [scoreOne, jsRound, mkMsg]⟩
  have hlen : items.length ≠ 0 := by simpa using h
  simp [averageScore, hlen, foldl_score_eq]

/-- Witness for C3 at the one-element list of all-ones metrics. -/
theorem c3_average_score_witness :
    averageScore [mkMsg 1 1 1 1]
      = jsRound (((([mkMsg 1 1 1 1].map scoreOne).sum : ℤ) : ℚ)
          / (([mkMsg 1 1 1 1] : List Msg).length : ℚ)) :=
  c3_average_score.2.1 [mkMsg 1 1 1 1] (List.cons_ne_nil _ _)

/-- Claim C10: the score is antitone in every metric — componentwise smaller
metrics give a score at least as large. -/
theorem c10_score_antitone (m1 m2 : Msg)
    (h1 : m1.loadTime ≤ m2.loadTime) (h2 : m1.cpuTime ≤ m2.cpuTime)
    (h3 : m1.networkLatency ≤ m2.networkLatency) (h4 : m1.memoryUsage ≤ m2.memoryUsage) :
    scoreOne m2 ≤ scoreOne m1 := by
  unfold scoreOne jsRound
  exact max_le_max le_rfl (Int.floor_mono (by linarith))

/-- Witness for C10: all-twos metrics score no higher than all-ones metrics. -/
theorem c10_score_antitone_witness :
    scoreOne (mkMsg 2 2 2 2) ≤ scoreOne (mkMsg 1 1 1 1) :=
  c10_score_antitone (mkMsg 1 1 1 1) (mkMsg 2 2 2 2)
    (by norm_num [mkMsg]) (by norm_num [mkMsg]) (by norm_num [mkMsg]) (by norm_num [mkMsg])

/-- The component's initial state (the `useState` initial values; only the
computer name input varies). -/
def initState (name : String) : AppState :=
  { computerName := name, started := false, results := [], history := [],
    runId := none, expectedCount := 0, dnsProbe := none,
    probeTriggered := false, completions := 0 }

/-- Claim C5: `runBenchmark` rejects an empty or whitespace-only computer name,
and (with a valid name) an empty target pool; in both cases the state is
returned unchanged, no spawn request is issued, and no run id is allocated. -/
theorem c5_validation (st : AppState) (sites : List String)
    (shuffle : List String → List String) (now : Nat) :
    (jsTrim st.computerName = "" →
      runBenchmark st sites shuffle now = (st, [], some RunError.missingComputerName)) ∧
    (jsTrim st.computerName ≠ "" → sites = [] →
      runBenchmark st sites shuffle now = (st, [], some RunError.emptyTargetPool)) := by
  constructor
  · intro h
    simp [runBenchmark, h]
  · intro h h2
    subst h2
    simp [runBenchmark, h]

/-- Witness for C5: a whitespace-only name, and a valid name with an empty pool. -/
theorem c5_validation_witness :
    runBenchmark (initState "   ") ["https://example.com"] id 7
      = (initState "   ", [], some RunError.missingComputerName) ∧
    runBenchmark (initState "pc") [] id 7
      = (initState "pc", [], some RunError.emptyTargetPool) :=
  ⟨(c5_validation (initState "   ") ["https://example.com"] id 7).1 (by decide),
   (c5_validation (initState "pc") [] id 7).2 (by decide) rfl⟩

/-- Counterexample to Claim C8 as stated: the selected targets need not be
distinct.  For the pool holding the same URL twice, the (identity) shuffle is a
permutation of the pool, yet both spawned workers address the same target. -/
theorem c8_counterexample :
    ((runBenchmark (initState "pc") ["https://a.com", "https://a.com"] id 0).2.1.map
        SpawnReq.site)
      = ["https://a.com", "https://a.com"] ∧
    ¬ ((runBenchmark (initState "pc") ["https://a.com", "https://a.com"] id 0).2.1.map
        SpawnReq.site).Nodup := by
  constructor
  · decide
  · decide

/-- Claim C8 (amended): for a non-empty pool and a valid name, `runBenchmark`
samples without replacement by position — it takes the first
`min(5, |targetPool|)` entries of a permutation of the pool — sets
`expectedCount` to the sample size, and allocates the new run id; the sampled
targets all come from the pool and are pairwise distinct whenever the pool has
no duplicate entries. -/
theorem c8_sample_size (st : AppState) (sites : List String)
    (shuffle : List String → List String) (now : Nat)
    (hname : jsTrim st.computerName ≠ "") (hpool : sites ≠ [])
    (hperm : (shuffle sites).Perm sites) :
    ∃ st' spawns, runBenchmark st sites shuffle now = (st', spawns, none) ∧
      spawns.length = min 5 sites.length ∧
      st'.expectedCount = min 5 sites.length ∧
      (∀ sp ∈ spawns, sp.site ∈ sites) ∧
      (sites.Nodup → (spawns.map SpawnReq.site).Nodup) ∧
      st'.runId = some now := by
  have hlen : sites.length ≠ 0 := by simpa using (List.length_pos.2 hpool).ne'
  have hlt : ¬ sites.length < 1 := by omega
  have hslen : (shuffle sites).length = sites.length := hperm.length_eq
  have key : runBenchmark st sites shuffle now =
      (({ st with
            dnsProbe := none
            runId := some now
            started := true
            results := []
            expectedCount :=
              ((shuffle sites).take (min 5 (shuffle sites).length)).length } :
            AppState),
        ((shuffle sites).take (min 5 (shuffle sites).length)).enum.map
          (fun p => ({ site := p.2, runId := now, index := p.1 } : SpawnReq)),
        (none : Option RunError)) := by
    simp only [runBenchmark, if_neg hname, if_neg hlt]
  have hsel : ((shuffle sites).take (min 5 (shuffle sites).length)).length
      = min 5 sites.length := by
    rw [List.length_take, hslen]
    omega
  refine ⟨_, _, key, ?_, ?_, ?_, ?_, rfl⟩
  · simpa [List.enum_length] using hsel
  · exact hsel
  · intro sp hsp
    simp only [List.mem_map] at hsp
    obtain ⟨p, hp, rfl⟩ := hsp
    have h2 : p.2 ∈ (shuffle sites).take (min 5 (shuffle sites).length) := by
      have := List.mem_map_of_mem Prod.snd hp
      rwa [List.enum_map_snd] at this
    exact hperm.subset (List.take_subset _ _ h2)
  · intro hnd
    have hnd' : ((shuffle sites).take (min 5 (shuffle sites).length)).Nodup :=
      ((hperm.nodup_iff).2 hnd).sublist (List.take_sublist _ _)
    have hmap :
        ((((shuffle sites).take (min 5 (shuffle sites).length)).enum.map
          (fun p => ({ site := p.2, runId := now, index := p.1 } : SpawnReq))).map
            SpawnReq.site)
          = (shuffle sites).take (min 5 (shuffle sites).length) := by
      rw [List.map_map]
      exact List.enum_map_snd _
    simpa only [hmap] using hnd'

/-- Witness for C8 (amended) at a concrete two-site pool with the identity
shuffle. -/
theorem c8_sample_size_witness :
    ∃ st' spawns,
      runBenchmark (initState "pc") ["https://a.com", "https://b.com"] id 7
        = (st', spawns, none) ∧
      spawns.length = min 5 (["https://a.com", "https://b.com"] : List String).length ∧
      st'.expectedCount = min 5 (["https://a.com", "https://b.com"] : List String).length ∧
      (∀ sp ∈ spawns, sp.site ∈ (["https://a.com", "https://b.com"] : List String)) ∧
      ((["https://a.com", "https://b.com"] : List String).Nodup →
        (spawns.map SpawnReq.site).Nodup) ∧
      st'.runId = some 7 :=
  c8_sample_size (initState "pc") ["https://a.com", "https://b.com"] id 7
    (by decide) (by decide) (List.Perm.refl _)

/-- Claim C6: a message whose type is not the result tag or whose run id is
not the active run id leaves the aggregator state unchanged; in particular,
after a successful `runBenchmark` any message tagged with a different
(e.g. superseded) run id is inert. -/
theorem c6_stale_message_inert :
    (∀ (st : AppState) (msg : Msg) (env : Option ProbeResult),
      msg.type ≠ "benchmarkResult" ∨ st.runId ≠ some msg.runId →
      onMessage st msg env = st) ∧
    (∀ (st st' : AppState) (sites : List String) (shuffle : List String → List String)
      (now : Nat) (spawns : List SpawnReq) (msg : Msg) (env : Option ProbeResult),
      runBenchmark st sites shuffle now = (st', spawns, none) →
      msg.runId ≠ now →
      onMessage st' msg env = st') := by
  have base : ∀ (st : AppState) (msg : Msg) (env : Option ProbeResult),
      msg.type ≠ "benchmarkResult" ∨ st.runId ≠ some msg.runId →
      onMessage st msg env = st := by
    intro st msg env h
    rcases h with h | h
    · simp [onMessage, h]
    · by_cases ht : msg.type ≠ "benchmarkResult"
      · simp [onMessage, ht]
      · simp [onMessage, ht, h]
  refine ⟨base, ?_⟩
  intro st st' sites shuffle now spawns msg env hrb hne
  have hrid : st'.runId = some now := by
    by_cases h1 : jsTrim st.computerName = ""
    · simp [runBenchmark, h1] at hrb
    · by_cases h2 : sites.length < 1
      · simp [runBenchmark, h1, h2] at hrb
      · simp only [runBenchmark, if_neg h1, if_neg h2] at hrb
        have h3 := congrArg Prod.fst hrb
        subst h3
        rfl
  exact base st' msg env (Or.inr (by simp [hrid, Ne.symm hne]))

/-- Witness for C6: before any run starts (active run id `none`), a result
message is discarded; and after a run starts with id 7, a message from stale
run id 3 is discarded. -/
theorem c6_stale_message_inert_witness :
    onMessage (initState "pc") (mkMsg 0 0 0 0) none = initState "pc" ∧
    (∀ st' spawns,
      runBenchmark (initState "pc") ["https://a.com"] id 7 = (st', spawns, none) →
      onMessage st' { mkMsg 0 0 0 0 with runId := 3 } none = st') :=
  ⟨c6_stale_message_inert.1 (initState "pc") (mkMsg 0 0 0 0) none
    (Or.inr (by simp [initState])),
   fun st' spawns h =>
    c6_stale_message_inert.2 (initState "pc") st' ["https://a.com"] id 7 spawns
      { mkMsg 0 0 0 0 with runId := 3 } none h (by decide)⟩

/-- Claim C7: at the message that completes a run, the DNS probe is invoked iff
some measurement of the run has a load time strictly above the 1000 ms
threshold; when it is not invoked the stored probe result is `none`; and a run
whose load times are all at most 1000 (including exactly 1000) never invokes
it. -/
theorem c7_probe_trigger (st : AppState) (msg : Msg) (env : Option ProbeResult)
    (htype : msg.type = "benchmarkResult")
    (hrid : st.runId = some msg.runId)
    (hdup : st.results.any (fun p => p.index == msg.index) = false)
    (hfull : (st.results ++ [msg]).length = st.expectedCount) :
    ((onMessage st msg env).probeTriggered = true ↔
      ∃ r ∈ st.results ++ [msg], loadTimeMs < r.loadTime) ∧
    ((onMessage st msg env).probeTriggered = false → (onMessage st msg env).dnsProbe = none) ∧
    ((∀ r ∈ st.results ++ [msg], r.loadTime ≤ loadTimeMs) →
      (onMessage st msg env).probeTriggered = false) := by
  have hmsg : onMessage st msg env =
      { st with
          results := sortByIndex (st.results ++ [msg])
          history := histAppend
            { id := st.runId, computer := st.computerName,
              finalScore := averageScore (st.results ++ [msg]),
              results := sortByIndex (st.results ++ [msg]) } st.history
          completions := st.completions + 1
          probeTriggered :=
            (st.results ++ [msg]).any (fun r => decide (loadTimeMs < r.loadTime))
          dnsProbe :=
            if (st.results ++ [msg]).any (fun r => decide (loadTimeMs < r.loadTime))
            then env else none } := by
    simp [onMessage, htype, hrid, hdup, hfull]
  rw [hmsg]
  refine ⟨?_, ?_, ?_⟩
  · simp only [List.any_eq_true, decide_eq_true_eq]
  · intro h
    simp only at h
    simp [h]
  · intro hall
    simp only [List.any_eq_false, decide_eq_true_eq]
    intro r hr
    exact not_lt.2 (hall r hr)

/-- Witness for C7: the boundary run whose single measurement loads in exactly
1000 ms completes without invoking the probe, and the probe result is absent. -/
theorem c7_probe_trigger_witness :
    (onMessage { initState "pc" with runId := some 0, expectedCount := 1 }
        (mkMsg 1000 0 0 0) none).probeTriggered = false ∧
    (onMessage { initState "pc" with runId := some 0, expectedCount := 1 }
        (mkMsg 1000 0 0 0) none).dnsProbe = none := by
  have h := c7_probe_trigger { initState "pc" with runId := some 0, expectedCount := 1 }
    (mkMsg 1000 0 0 0) none rfl rfl rfl rfl
  have htrig := h.2.2 (by
    intro r hr
    simp only [initState, List.nil_append, List.mem_singleton] at hr
    rw [hr]
    norm_num [mkMsg, loadTimeMs])
  exact ⟨htrig, h.2.1 htrig⟩

/-- Claim C9: the persisted history is loaded fail-soft — an absent blob, the
empty (falsy) blob, or an unparseable blob all yield the empty in-memory
history with no error — and a failed history write leaves the durable store
unchanged, again with no error surfaced. -/
theorem c9_persistence_fail_soft :
    (∀ parse, loadPersistedHistory none parse = []) ∧
    (∀ (s : String) (parse : String → Option (List RunRecord)),
      parse s = none → loadPersistedHistory (some s) parse = []) ∧
    (∀ (store : List (String × String)) (serialized : String),
      persistHistory store serialized false = store) := by
  refine ⟨fun parse => rfl, ?_, fun store serialized => rfl⟩
  intro s parse h
  by_cases hs : s = "" <;> simp [loadPersistedHistory, hs, h]

/-- Witness for C9: a malformed blob (every parse fails) loads as the empty
history. -/
theorem c9_persistence_fail_soft_witness :
    loadPersistedHistory (some "garbage") (fun _ => none) = [] :=
  c9_persistence_fail_soft.2.1 "garbage" (fun _ => none) rfl

/-- A run record with the given id and no measurements (used as concrete data). -/
def recN (n : Nat) : RunRecord :=
  { id := some n, computer := "pc", finalScore := 0, results := [] }

/-- Claim C4: the history is only ever changed by prepend-then-truncate
(`histAppend`), whose result never exceeds 5 records; six successive appends
starting from the empty log leave exactly the 5 newest records, newest first,
with the first record evicted. -/
theorem c4_history_bounded :
    (∀ (st : AppState) (msg : Msg) (env : Option ProbeResult),
      (onMessage st msg env).history = st.history ∨
      ∃ r, (onMessage st msg env).history = histAppend r st.history) ∧
    (∀ (r : RunRecord) (h : List RunRecord), (histAppend r h).length ≤ 5) ∧
    (∀ r1 r2 r3 r4 r5 r6 : RunRecord,
      r1 ≠ r2 → r1 ≠ r3 → r1 ≠ r4 → r1 ≠ r5 → r1 ≠ r6 →
      histAppend r6 (histAppend r5 (histAppend r4 (histAppend r3
          (histAppend r2 (histAppend r1 [])))))
        = [r6, r5, r4, r3, r2] ∧
      r1 ∉ histAppend r6 (histAppend r5 (histAppend r4 (histAppend r3
          (histAppend r2 (histAppend r1 [])))))) := by
  refine ⟨?_, ?_, ?_⟩
  · intro st msg env
    unfold onMessage
    split
    · exact Or.inl rfl
    split
    · exact Or.inl rfl
    split
    · exact Or.inl rfl
    dsimp only
    split
    · exact Or.inr ⟨_, rfl⟩
    · exact Or.inl rfl
  · intro r h
    simp only [histAppend]
    exact (List.length_take_le _ _).trans (le_refl 5)
  · intro r1 r2 r3 r4 r5 r6 h2 h3 h4 h5 h6
    refine ⟨by simp [histAppend], ?_⟩
    simp [histAppend, h2, h3, h4, h5, h6]

/-- Witness for C4: six concrete records with distinct run ids. -/
theorem c4_history_bounded_witness :
    histAppend (recN 6) (histAppend (recN 5) (histAppend (recN 4) (histAppend (recN 3)
        (histAppend (recN 2) (histAppend (recN 1) [])))))
      = [recN 6, recN 5, recN 4, recN 3, recN 2] ∧
    recN 1 ∉ histAppend (recN 6) (histAppend (recN 5) (histAppend (recN 4) (histAppend (recN 3)
        (histAppend (recN 2) (histAppend (recN 1) []))))) :=
  c4_history_bounded.2.2 (recN 1) (recN 2) (recN 3) (recN 4) (recN 5) (recN 6)
    (by decide) (by decide) (by decide) (by decide) (by decide)

lemma insertByIndex_perm (m : Msg) (l : List Msg) : (insertByIndex m l).Perm (m :: l) := by
  induction l with
  | nil => simp [insertByIndex]
  | cons x xs ih =>
    by_cases h : m.index ≤ x.index
    · simp [insertByIndex, h]
    · simp only [insertByIndex, if_neg h]
      exact (ih.cons x).trans (List.Perm.swap m x xs)

lemma sortByIndex_perm (l : List Msg) : (sortByIndex l).Perm l := by
  induction l with
  | nil => simp [sortByIndex]
  | cons x xs ih =>
    exact (insertByIndex_perm x (sortByIndex xs)).trans (ih.cons x)

lemma any_index_iff (l : List Msg) (m : Msg) :
    (l.any fun p => p.index == m.index) = true ↔ m.index ∈ l.map Msg.index := by
  simp [List.any_eq_true, List.mem_map]

/-- Invariant of the aggregator while the `n` distinct-index messages `msgs`
of the active run `rid` are being delivered: the accumulated results all come
from `msgs`, have pairwise distinct indices, hold exactly the indices
delivered so far (`seen`), and the completion branch has fired iff the
accumulated count has reached `n`. -/
def Inv (msgs : List Msg) (rid n : Nat) (seen : List Msg) (s : AppState) : Prop :=
  s.runId = some rid ∧ s.expectedCount = n ∧
  (∀ m ∈ s.results, m ∈ msgs) ∧
  (s.results.map Msg.index).Nodup ∧
  (∀ i, i ∈ s.results.map Msg.index ↔ i ∈ seen.map Msg.index) ∧
  s.completions = (if s.results.length = n then 1 else 0)

lemma results_length_le (msgs : List Msg) (n : Nat) (l : List Msg)
    (hlen : msgs.length = n)
    (hsub : ∀ m ∈ l, m ∈ msgs) (hndl : (l.map Msg.index).Nodup) :
    l.length ≤ n := by
  have hss : l.map Msg.index ⊆ msgs.map Msg.index := by
    intro i hi
    simp only [List.mem_map] at hi ⊢
    obtain ⟨m, hm, rfl⟩ := hi
    exact ⟨m, hsub m hm, rfl⟩
  have := (List.subperm_of_subset hndl hss).length_le
  simpa [hlen] using this

lemma onMessage_inv (msgs : List Msg) (rid n : Nat) (env : Option ProbeResult)
    (hlen : msgs.length = n)
    (htype : ∀ x ∈ msgs, x.type = "benchmarkResult")
    (hruns : ∀ x ∈ msgs, x.runId = rid)
    (seen : List Msg) (s : AppState) (m : Msg) (hm : m ∈ msgs)
    (hs : Inv msgs rid n seen s) :
    Inv msgs rid n (seen ++ [m]) (onMessage s m env) := by
  obtain ⟨h1, h2, h3, h4, h5, h6⟩ := hs
  have htm : m.type = "benchmarkResult" := htype m hm
  have hrm : m.runId = rid := hruns m hm
  unfold onMessage
  rw [if_neg (by simp [htm])]
  rw [if_neg (by simp [h1, hrm])]
  by_cases hdup : (s.results.any fun p => p.index == m.index) = true
  · rw [if_pos hdup]
    have hidx : m.index ∈ s.results.map Msg.index := (any_index_iff _ _).1 hdup
    refine ⟨h1, h2, h3, h4, fun i => ?_, h6⟩
    have hseen : m.index ∈ seen.map Msg.index := (h5 m.index).1 hidx
    rw [h5 i]
    simp only [List.map_append, List.mem_append, List.map_cons, List.map_nil,
      List.mem_singleton]
    constructor
    · exact Or.inl
    · rintro (hi | rfl)
      · exact hi
      · exact hseen
  · rw [if_neg hdup]
    have hnew : m.index ∉ s.results.map Msg.index := fun hc =>
      hdup ((any_index_iff _ _).2 hc)
    have hsub' : ∀ x ∈ s.results ++ [m], x ∈ msgs := by
      intro x hx
      rcases List.mem_append.1 hx with hx | hx
      · exact h3 x hx
      · rw [List.mem_singleton.1 hx]; exact hm
    have hnd' : ((s.results ++ [m]).map Msg.index).Nodup := by
      simp only [List.map_append, List.map_cons, List.map_nil]
      have hperm := List.perm_append_singleton (Msg.index m) (s.results.map Msg.index)
      rw [hperm.nodup_iff]
      exact List.nodup_cons.2 ⟨hnew, h4⟩
    have hbound : (s.results ++ [m]).length ≤ n :=
      results_length_le msgs n _ hlen hsub' hnd'
    have hmem' : ∀ i, i ∈ (s.results ++ [m]).map Msg.index ↔
        i ∈ (seen ++ [m]).map Msg.index := by
      intro i
      simp only [List.map_append, List.mem_append, List.map_cons, List.map_nil]
      rw [h5 i]
    dsimp only
    by_cases hc : (s.results ++ [m]).length = s.expectedCount
    · rw [if_pos hc]
      have hclen : (s.results ++ [m]).length = n := h2 ▸ hc
      have hprev : ¬ s.results.length = n := by
        simp only [List.length_append, List.length_singleton] at hclen
        omega
      have hsp := sortByIndex_perm (s.results ++ [m])
      refine ⟨h1, h2, ?_, ?_, ?_, ?_⟩
      · intro x hx
        exact hsub' x (hsp.subset hx)
      · rw [((hsp.map Msg.index).nodup_iff)]
        exact hnd'
      · intro i
        rw [List.mem_map]
        constructor
        · rintro ⟨x, hx, rfl⟩
          exact (hmem' x.index).1 (List.mem_map_of_mem Msg.index (hsp.subset hx))
        · intro hi
          have := (hmem' i).2 hi
          rw [List.mem_map] at this
          obtain ⟨x, hx, rfl⟩ := this
          exact ⟨x, hsp.symm.subset hx, rfl⟩
      · have hslen : (sortByIndex (s.results ++ [m])).length = n :=
          hsp.length_eq.trans hclen
        rw [if_pos hslen, h6, if_neg hprev]
    · rw [if_neg hc]
      have hcn : ¬ (s.results ++ [m]).length = n := h2 ▸ hc
      have hprev : ¬ s.results.length = n := by
        intro hp
        apply absurd hbound
        simp only [List.length_append, List.length_singleton, hp]
        omega
      exact ⟨h1, h2, hsub', hnd', hmem', by rw [if_neg hcn, h6, if_neg hprev]⟩

lemma foldl_inv (msgs : List Msg) (rid n : Nat) (env : Option ProbeResult)
    (hlen : msgs.length = n)
    (htype : ∀ x ∈ msgs, x.type = "benchmarkResult")
    (hruns : ∀ x ∈ msgs, x.runId = rid) :
    ∀ (ds : List Msg), (∀ x ∈ ds, x ∈ msgs) →
      ∀ (seen : List Msg) (s : AppState), Inv msgs rid n seen s →
        Inv msgs rid n (seen ++ ds) (ds.foldl (fun a m => onMessage a m env) s) := by
  intro ds
  induction ds with
  | nil =>
    intro _ seen s hs
    simpa using hs
  | cons d ds ih =>
    intro hds seen s hs
    have hd : d ∈ msgs := hds d (List.mem_cons_self d ds)
    have hstep := onMessage_inv msgs rid n env hlen htype hruns seen s d hd hs
    have := ih (fun x hx => hds x (List.mem_cons_of_mem d hx)) (seen ++ [d]) _ hstep
    simpa using this

/-- Claim C1: for a run expecting `n > 0` distinct-index messages, any delivery
order covering all `n` messages — re-deliveries of the same messages allowed —
leaves the aggregator with exactly `n` accumulated measurements, and the
completion branch (final score and `RunRecord` appended to history) has
executed exactly once. -/
theorem c1_completion_exactly_once (n rid : Nat) (msgs ds : List Msg)
    (env : Option ProbeResult) (st0 : AppState)
    (hn : 0 < n)
    (hrun : st0.runId = some rid) (hexp : st0.expectedCount = n)
    (hres : st0.results = []) (hcomp : st0.completions = 0)
    (hlen : msgs.length = n)
    (hnodup : (msgs.map Msg.index).Nodup)
    (htype : ∀ m ∈ msgs, m.type = "benchmarkResult")
    (hruns : ∀ m ∈ msgs, m.runId = rid)
    (hcover : ∀ m ∈ msgs, m ∈ ds)
    (hfrom : ∀ m ∈ ds, m ∈ msgs) :
    (ds.foldl (fun s m => onMessage s m env) st0).results.length = n ∧
    (ds.foldl (fun s m => onMessage s m env) st0).completions = 1 := by
  have base : Inv msgs rid n [] st0 := by
    refine ⟨hrun, hexp, ?_, ?_, ?_, ?_⟩
    · simp [hres]
    · simp [hres]
    · simp [hres]
    · rw [hcomp, hres]
      simp only [List.length_nil]
      rw [if_neg (by omega)]
  have hfin := foldl_inv msgs rid n env hlen htype hruns ds hfrom [] st0 base
  obtain ⟨f1, f2, f3, f4, f5, f6⟩ := hfin
  set final := ds.foldl (fun s m => onMessage s m env) st0 with hfinal
  have hsup : msgs.map Msg.index ⊆ final.results.map Msg.index := by
    intro i hi
    rw [List.mem_map] at hi
    obtain ⟨m, hm, rfl⟩ := hi
    have : m.index ∈ ([] ++ ds : List Msg).map Msg.index := by
      simp only [List.nil_append]
      exact List.mem_map_of_mem Msg.index (hcover m hm)
    exact (f5 m.index).2 this
  have hsub : final.results.map Msg.index ⊆ msgs.map Msg.index := by
    intro i hi
    rw [List.mem_map] at hi ⊢
    obtain ⟨m, hm, rfl⟩ := hi
    exact ⟨m, f3 m hm, rfl⟩
  have hle1 := (List.subperm_of_subset f4 hsub).length_le
  have hle2 := (List.subperm_of_subset hnodup hsup).length_le
  simp only [List.length_map, hlen] at hle1 hle2
  have hlenf : final.results.length = n := le_antisymm hle1 hle2
  exact ⟨hlenf, by rw [f6, if_pos hlenf]⟩

/-- First concrete message of the witness run (index 0). -/
def wMsg0 : Msg := mkMsg 10 0 0 0

/-- Second concrete message of the witness run (index 1). -/
def wMsg1 : Msg := { mkMsg 20 0 0 0 with index := 1 }

/-- Witness for C1: two distinct-index messages for run 0, delivered out of
order with a duplicate delivery in between. -/
theorem c1_completion_exactly_once_witness :
    (([wMsg1, wMsg0, wMsg1].foldl (fun s m => onMessage s m none)
      { initState "pc" with runId := some 0, expectedCount := 2 }).results.length = 2) ∧
    (([wMsg1, wMsg0, wMsg1].foldl (fun s m => onMessage s m none)
      { initState "pc" with runId := some 0, expectedCount := 2 }).completions = 1) :=
  c1_completion_exactly_once 2 0 [wMsg0, wMsg1] [wMsg1, wMsg0, wMsg1]
    none { initState "pc" with runId := some 0, expectedCount := 2 }
    (by decide) rfl rfl rfl rfl rfl (by decide)
    (by
      intro m hm
      simp only [List.mem_cons, List.not_mem_nil, or_false] at hm
      rcases hm with rfl | rfl
      · rfl
      · rfl)
    (by
      intro m hm
      simp only [List.mem_cons, List.not_mem_nil, or_false] at hm
      rcases hm with rfl | rfl
      · rfl
      · rfl)
    (by
      intro m hm
      simp only [List.mem_cons, List.not_mem_nil, or_false] at hm
      rcases hm with rfl | rfl
      · exact List.mem_cons_of_mem _ (List.mem_cons_self _ _)
      · exact List.mem_cons_self _ _)
    (by
      intro m hm
      simp only [List.mem_cons, List.not_mem_nil, or_false] at hm
      rcases hm with rfl | rfl | rfl
      · exact List.mem_cons_of_mem _ (List.mem_cons_self _ _)
      · exact List.mem_cons_self _ _
      · exact List.mem_cons_of_mem _ (List.mem_cons_self _ _))

end Benchmark
